import Mathlib

/-!
Verification of the tracing core of `sentry-javascript` (packages/tracing):
the sampling engine (`hubextensions.ts`: `sample`, `isValidSampleRate`),
option inspection (`utils.ts`: `hasTracingEnabled`), the `sentry-trace`
header decoder (`utils.ts`: `TRACEPARENT_REGEXP`, `extractTraceparentData`)
and the `tracestate` header encoder (`utils.ts`: `computeTracestateValue`).

JavaScript values relevant to sampling are embedded as an inductive type;
numbers are modelled as "NaN or a rational", since the sampling code only
ever compares numbers and casts booleans, and every finite double is a
rational on which comparison agrees. `Math.random()` becomes an explicit
`draw` parameter. Mutation of the transaction object becomes explicit
state passing (the function returns the updated transaction).
-/

namespace SentryTracing

/-- A JavaScript number: NaN, or a finite value (a rational; the code only
compares numbers and never does arithmetic on them, and comparison of finite
doubles agrees with comparison of the rationals they denote). -/
inductive JSNum where
  | nan : JSNum
  | fin : ℚ → JSNum
deriving DecidableEq

/-- A JavaScript value as it can occur as an option value or sampler result:
`undefined`, `null`, a boolean, a number, or a function. A function is
represented by the value it returns when invoked (the sampler is called
exactly once, with the sampling context). -/
inductive JSVal where
  | undefined : JSVal
  | null : JSVal
  | bool : Bool → JSVal
  | num : JSNum → JSVal
  | fn : JSVal → JSVal
deriving DecidableEq

/-- JavaScript `Number(v)` (ToNumber) on the modelled values. -/
def jsToNumber : JSVal → JSNum
  | .undefined => .nan
  | .null => .fin 0
  | .bool b => .fin (if b then 1 else 0)
  | .num n => n
  | .fn _ => .nan

/-- JavaScript global `isNaN(v)` (coerces, then tests for NaN). -/
def jsIsNaN (v : JSVal) : Bool :=
  match jsToNumber v with
  | .nan => true
  | .fin _ => false

/-- `typeof v === 'number'`. -/
def jsTypeofNumber : JSVal → Bool
  | .num _ => true
  | _ => false

/-- `typeof v === 'boolean'`. -/
def jsTypeofBoolean : JSVal → Bool
  | .bool _ => true
  | _ => false

/-- `typeof v === 'function'`. -/
def jsTypeofFunction : JSVal → Bool
  | .fn _ => true
  | _ => false

/-- JavaScript `v < q` for a numeric literal `q` (NaN comparisons are false). -/
def jsLtNum (v : JSVal) (q : ℚ) : Bool :=
  match jsToNumber v with
  | .nan => false
  | .fin x => decide (x < q)

/-- JavaScript `v > q` for a numeric literal `q` (NaN comparisons are false). -/
def jsGtNum (v : JSVal) (q : ℚ) : Bool :=
  match jsToNumber v with
  | .nan => false
  | .fin x => decide (q < x)

/-- JavaScript truthiness test `!v` negated: `jsFalsy v = true` iff `!v`. -/
def jsFalsy : JSVal → Bool
  | .undefined => true
  | .null => true
  | .bool b => !b
  | .num .nan => true
  | .num (.fin q) => decide (q = 0)
  | .fn _ => false

/-- Invoking a JavaScript value as a function (only done under a
`typeof === 'function'` guard in the code, so the non-function case is
unreachable there). -/
def jsCall : JSVal → JSVal
  | .fn r => r
  | _ => .undefined

/-- `Math.random() < rate` where `draw` is the random value: JavaScript `<`
coerces `rate` (ToNumber); a NaN comparison is false. -/
def jsDrawLt (draw : ℚ) (rate : JSVal) : Bool :=
  match jsToNumber rate with
  | .nan => false
  | .fin q => decide (draw < q)

/-- `options._experiments` object: carries the `maxSpans` value. -/
structure Experiments where
  maxSpans : JSVal
deriving DecidableEq

/-- The slice of the SDK options the sampling code reads. A field of value
`none` means the key is absent from the options object; `some v` means the
key is present with value `v` (possibly `undefined`), which is what the
JavaScript `in` operator distinguishes. -/
structure Options where
  tracesSampler : Option JSVal
  tracesSampleRate : Option JSVal
  experimentsOpt : Option Experiments
deriving DecidableEq

/-- Reading a possibly-absent property yields `undefined` when absent. -/
def propGet (o : Option JSVal) : JSVal := o.getD .undefined

/-- `options._experiments?.maxSpans` as passed to `initSpanRecorder`. -/
def maxSpansArg (o : Options) : JSVal :=
  match o.experimentsOpt with
  | none => .undefined
  | some e => e.maxSpans

/-- `hasTracingEnabled` (utils.ts): `'tracesSampleRate' in options ||
'tracesSampler' in options` — key presence, not value truthiness. -/
def hasTracingEnabled (o : Options) : Bool :=
  o.tracesSampleRate.isSome || o.tracesSampler.isSome

/-- `TransactionSamplingMethod` provenance tag. -/
inductive TransactionSamplingMethod where
  | Explicit
  | Sampler
  | Inheritance
  | Rate
deriving DecidableEq

/-- The `transactionSampling` metadata entry: method plus the optional
numeric-cast rate recorded alongside it. -/
structure TransactionSampling where
  method : TransactionSamplingMethod
  rate : Option JSNum
deriving DecidableEq

/-- The slice of a transaction the sampling engine reads and writes:
its `sampled` field (`none` = `undefined`), its `transactionSampling`
metadata entry, and whether/with what argument `initSpanRecorder` was
called (`none` = not called). -/
structure Transaction where
  sampled : Option Bool
  metadata : Option TransactionSampling
  recorder : Option JSVal
deriving DecidableEq

/-- The slice of the sampling context `sample` reads: the
`parentSampled` flag (`none` = `undefined`). -/
structure SamplingContext where
  parentSampled : Option Bool
deriving DecidableEq

/-- `isValidSampleRate` (hubextensions.ts): rejects NaN-coercing values and
non-number/non-boolean types, then rejects out-of-range numbers. -/
def isValidSampleRate (rate : JSVal) : Bool :=
  if jsIsNaN rate || !(jsTypeofNumber rate || jsTypeofBoolean rate) then false
  else if jsLtNum rate 0 || jsGtNum rate 1 then false
  else true

/-- `sample` (hubextensions.ts). `hasClient` models `hub.getClient()`
being defined; `draw` models the one `Math.random()` call; logging is
dropped (pure side effect). The structure mirrors the source line by line:
no-client/disabled bail-out, explicit-decision bail-out, the three-way
rate-source precedence with its metadata writes, validation, the falsy-rate
drop, the dice roll, and recorder initialization on keep. -/
def sample (hasClient : Bool) (o : Options) (t : Transaction)
    (ctx : SamplingContext) (draw : ℚ) : Transaction :=
  if !hasClient || !hasTracingEnabled o then
    { t with sampled := some false }
  else if t.sampled.isSome then
    { t with metadata := some ⟨.Explicit, none⟩ }
  else
    let step : JSVal × TransactionSampling :=
      if jsTypeofFunction (propGet o.tracesSampler) then
        let r := jsCall (propGet o.tracesSampler)
        (r, ⟨.Sampler, some (jsToNumber r)⟩)
      else
        match ctx.parentSampled with
        | some ps => (.bool ps, ⟨.Inheritance, none⟩)
        | none =>
          let r := propGet o.tracesSampleRate
          (r, ⟨.Rate, some (jsToNumber r)⟩)
    let t1 := { t with metadata := some step.2 }
    if !isValidSampleRate step.1 then
      { t1 with sampled := some false }
    else if jsFalsy step.1 then
      { t1 with sampled := some false }
    else if !jsDrawLt draw step.1 then
      { t1 with sampled := some false }
    else
      { t1 with sampled := some true, recorder := some (maxSpansArg o) }

/-- The Validator contract as the spec words it: booleans, or numbers in the
closed interval `[0, 1]` (NaN excluded); everything else invalid. -/
def isValidRateSpec : JSVal → Bool
  | .bool _ => true
  | .num (.fin q) => decide (0 ≤ q ∧ q ≤ 1)
  | _ => false

/-! ## The sentry-trace header decoder (utils.ts)

`TRACEPARENT_REGEXP` is
`^[ \t]*([0-9a-f]{32})?-?([0-9a-f]{16})?-?([01])?[ \t]*$`.
It is embedded as a backtracking matcher over `List Char` with one function
per regex element, each trying the greedy alternative first and falling
back to skipping the optional element, exactly as the regex engine does.
The leading `[ \t]*` is consumed greedily without backtracking, which is
equivalent here because no later element can match a space or a tab. -/

/-- The `[ \t]` character class. -/
def isWsChar (c : Char) : Bool := c = ' ' || c = '\t'

/-- The `[0-9a-f]` character class. -/
def isHexChar (c : Char) : Bool :=
  ('0' ≤ c && c ≤ '9') || ('a' ≤ c && c ≤ 'f')

/-- Result of `extractTraceparentData`: each field `none` when the
corresponding capture group did not participate in the match. -/
structure TraceparentData where
  traceId : Option String
  parentSpanId : Option String
  parentSampled : Option Bool
deriving DecidableEq

/-- The three capture groups of `TRACEPARENT_REGEXP` (`matches[1..3]`). -/
structure TraceparentCaps where
  g1 : Option (List Char)
  g2 : Option (List Char)
  g3 : Option Char
deriving DecidableEq

/-- Match `[0-9a-f]{n}` at the front of `l`. -/
def takeHex (n : Nat) (l : List Char) : Option (List Char × List Char) :=
  if (l.take n).length = n && (l.take n).all isHexChar then
    some (l.take n, l.drop n)
  else none

/-- Match the trailing `[ \t]*$`. -/
def matchEnd (caps : TraceparentCaps) (l : List Char) :
    Option TraceparentCaps :=
  if l.all isWsChar then some caps else none

/-- Match `([01])?[ \t]*$`. -/
def matchG3 (caps : TraceparentCaps) (l : List Char) :
    Option TraceparentCaps :=
  (match l with
    | c :: rest =>
      if c = '0' || c = '1' then matchEnd { caps with g3 := some c } rest
      else none
    | [] => none) <|>
  matchEnd caps l

/-- Match `-?([01])?[ \t]*$`. -/
def matchHyp2 (caps : TraceparentCaps) (l : List Char) :
    Option TraceparentCaps :=
  (match l with
    | c :: rest => if c = '-' then matchG3 caps rest else none
    | [] => none) <|>
  matchG3 caps l

/-- Match `([0-9a-f]{16})?-?([01])?[ \t]*$`. -/
def matchG2 (caps : TraceparentCaps) (l : List Char) :
    Option TraceparentCaps :=
  (match takeHex 16 l with
    | some (t, rest) => matchHyp2 { caps with g2 := some t } rest
    | none => none) <|>
  matchHyp2 caps l

/-- Match `-?([0-9a-f]{16})?-?([01])?[ \t]*$`. -/
def matchHyp1 (caps : TraceparentCaps) (l : List Char) :
    Option TraceparentCaps :=
  (match l with
    | c :: rest => if c = '-' then matchG2 caps rest else none
    | [] => none) <|>
  matchG2 caps l

/-- Match `([0-9a-f]{32})?-?([0-9a-f]{16})?-?([01])?[ \t]*$`. -/
def matchG1 (l : List Char) : Option TraceparentCaps :=
  (match takeHex 32 l with
    | some (t, rest) => matchHyp1 ⟨some t, none, none⟩ rest
    | none => none) <|>
  matchHyp1 ⟨none, none, none⟩ l

/-- `traceparent.match(TRACEPARENT_REGEXP)`: the anchored match of the
whole input, returning the capture groups. -/
def traceparentMatch (s : String) : Option TraceparentCaps :=
  matchG1 (s.data.dropWhile isWsChar)

/-- `extractTraceparentData` (utils.ts): `matches[3] === '1'` maps to
`true`, `'0'` to `false`, anything else leaves `parentSampled` undefined;
`traceId`/`parentSpanId` are the raw captures. -/
def extractTraceparentData (s : String) : Option TraceparentData :=
  match traceparentMatch s with
  | some caps =>
    some { traceId := caps.g1.map String.mk
           parentSpanId := caps.g2.map String.mk
           parentSampled :=
             if caps.g3 = some '1' then some true
             else if caps.g3 = some '0' then some false
             else none }
  | none => none

/-- The header grammar as the spec words it: optional surrounding
whitespace, optional 32-hex trace id, optional hyphen, optional 16-hex span
id, optional hyphen, optional single digit 0 or 1, anchored end to end. -/
def SpecGrammar (s : String) : Prop :=
  ∃ w1 t h1 p h2 f w2 : List Char,
    s.data = w1 ++ (t ++ (h1 ++ (p ++ (h2 ++ (f ++ w2))))) ∧
    w1.all isWsChar = true ∧ w2.all isWsChar = true ∧
    (t = [] ∨ (t.length = 32 ∧ t.all isHexChar = true)) ∧
    (h1 = [] ∨ h1 = ['-']) ∧
    (p = [] ∨ (p.length = 16 ∧ p.all isHexChar = true)) ∧
    (h2 = [] ∨ h2 = ['-']) ∧
    (f = [] ∨ f = ['0'] ∨ f = ['1'])

/-! ## The tracestate header encoder (utils.ts `computeTracestateValue`)

The encoder serializes a four-field object with `JSON.stringify` (after
overwriting falsy `environment`/`release` with `null` on the argument
itself), base64-encodes it with `unicodeToBase64`, and strips one or two
trailing `=` padding characters. `unicodeToBase64` lives in the utils
package, outside the given sources, and is modelled from the spec. -/

/-- A JavaScript `string | undefined | null` value. -/
inductive JSStr where
  | undefined : JSStr
  | null : JSStr
  | str : String → JSStr
deriving DecidableEq

/-- Truthiness of a `string | undefined | null`: only a nonempty string is
truthy. -/
def strFalsy : JSStr → Bool
  | .undefined => true
  | .null => true
  | .str s => s.isEmpty

/-- JavaScript `x || null`. -/
def orNull (v : JSStr) : JSStr := if strFalsy v then .null else v

/-- The `tracestateData` argument of `computeTracestateValue`. -/
structure TracestateData where
  trace_id : String
  environment : JSStr
  release : JSStr
  public_key : String
deriving DecidableEq

/-- Lowercase hex digit, as used in `JSON.stringify` unicode escapes. -/
def hexDigitChar (n : ℕ) : Char :=
  if n < 10 then Char.ofNat (48 + n) else Char.ofNat (87 + n)

/-- `JSON.stringify` escaping of one string character (ECMA-404 QuoteJSONString:
quote, backslash, the five control shorthands, `\u00XX` for other control
characters, everything else verbatim). -/
def escapeJsonChar (c : Char) : List Char :=
  if c = '"' then ['\\', '"']
  else if c = '\\' then ['\\', '\\']
  else if c = '\x08' then ['\\', 'b']
  else if c = '\t' then ['\\', 't']
  else if c = '\n' then ['\\', 'n']
  else if c = '\x0c' then ['\\', 'f']
  else if c = '\r' then ['\\', 'r']
  else if c.toNat < 32 then
    ['\\', 'u', '0', '0', hexDigitChar (c.toNat / 16), hexDigitChar (c.toNat % 16)]
  else [c]

def escapeJsonString (l : List Char) : List Char :=
  (l.map escapeJsonChar).flatten

/-- A JSON string literal: quote, escaped content, quote. -/
def quoteJson (s : String) : List Char :=
  '"' :: (escapeJsonString s.data ++ ['"'])

/-- Serialization of a `string | undefined | null` member value:
`JSON.stringify` drops keys whose value is `undefined` and keeps `null`. -/
def jsonStrOrNull : JSStr → Option (List Char)
  | .undefined => none
  | .null => some ['n', 'u', 'l', 'l']
  | .str s => some (quoteJson s)

/-- One `"key":value` member. -/
def jsonMember (k : String) (v : List Char) : List Char :=
  quoteJson k ++ (':' :: v)

/-- The members of the serialized object, in field order, dropping
undefined-valued keys. -/
def jsonMembers (d : TracestateData) : List (List Char) :=
  List.filterMap id
    [some (jsonMember "trace_id" (quoteJson d.trace_id)),
     (jsonStrOrNull d.environment).map (jsonMember "environment"),
     (jsonStrOrNull d.release).map (jsonMember "release"),
     some (jsonMember "public_key" (quoteJson d.public_key))]

/-- `JSON.stringify(tracestateData)`. -/
def jsonStringifyTracestate (d : TracestateData) : List Char :=
  '{' :: (List.intercalate [','] (jsonMembers d) ++ ['}'])

/-- UTF-8 encoding of one code point. -/
def utf8EncodeChar (n : ℕ) : List ℕ :=
  if n < 128 then [n]
  else if n < 2048 then [192 + n / 64, 128 + n % 64]
  else if n < 65536 then
    [224 + n / 4096, 128 + n / 64 % 64, 128 + n % 64]
  else
    [240 + n / 262144, 128 + n / 4096 % 64, 128 + n / 64 % 64, 128 + n % 64]

/-- UTF-8 encoding of a string's code points. -/
def utf8Encode (l : List Char) : List ℕ :=
  (l.map (fun c => utf8EncodeChar c.toNat)).flatten

/-- A UTF-8 continuation byte. -/
def utf8Cont (c : ℕ) : Bool := 128 ≤ c && c < 192

/-- Decode the tail of a two-byte sequence. -/
def utf8Tail1 (b : ℕ) : List ℕ → Option (ℕ × List ℕ)
  | c1 :: rest =>
    if utf8Cont c1 then some ((b - 192) * 64 + (c1 - 128), rest) else none
  | [] => none

/-- Decode the tail of a three-byte sequence. -/
def utf8Tail2 (b : ℕ) : List ℕ → Option (ℕ × List ℕ)
  | c1 :: c2 :: rest =>
    if utf8Cont c1 && utf8Cont c2 then
      some ((b - 224) * 4096 + (c1 - 128) * 64 + (c2 - 128), rest)
    else none
  | _ => none

/-- Decode the tail of a four-byte sequence. -/
def utf8Tail3 (b : ℕ) : List ℕ → Option (ℕ × List ℕ)
  | c1 :: c2 :: c3 :: rest =>
    if utf8Cont c1 && utf8Cont c2 && utf8Cont c3 then
      some ((b - 240) * 262144 + (c1 - 128) * 4096 + (c2 - 128) * 64 +
        (c3 - 128), rest)
    else none
  | _ => none

/-- Decode one code point from the front: lead-byte dispatch plus
continuation-byte checks. -/
def utf8DecodeStep : List ℕ → Option (ℕ × List ℕ)
  | [] => none
  | b :: rest =>
    if b < 128 then some (b, rest)
    else if b < 192 then none
    else if b < 224 then utf8Tail1 b rest
    else if b < 240 then utf8Tail2 b rest
    else if b < 248 then utf8Tail3 b rest
    else none

/-- Decode a whole byte list (the fuel only bounds the recursion; each
step consumes at least one byte, so the list length is always enough). -/
def utf8DecodeLoop : ℕ → List ℕ → Option (List ℕ)
  | _, [] => some []
  | 0, _ :: _ => none
  | fuel + 1, b :: rest =>
    match utf8DecodeStep (b :: rest) with
    | none => none
    | some p => (utf8DecodeLoop fuel p.2).map (fun tl => p.1 :: tl)

/-- UTF-8 decoding back to code points (the inverse used to state the
round-trip). -/
def utf8Decode (l : List ℕ) : Option (List ℕ) := utf8DecodeLoop l.length l

/-- The base64 alphabet. -/
def b64Char (n : ℕ) : Char :=
  if n < 26 then Char.ofNat (65 + n)
  else if n < 52 then Char.ofNat (71 + n)
  else if n < 62 then Char.ofNat (n - 4)
  else if n = 62 then '+'
  else '/'

/-- Base64 without the trailing padding: full three-byte blocks give four
characters, a trailing one- or two-byte block gives two or three. -/
def b64EncodeNoPad : List ℕ → List Char
  | [] => []
  | [b1] => [b64Char (b1 / 4), b64Char (b1 % 4 * 16)]
  | [b1, b2] =>
    [b64Char (b1 / 4), b64Char (b1 % 4 * 16 + b2 / 16), b64Char (b2 % 16 * 4)]
  | b1 :: b2 :: b3 :: rest =>
    b64Char (b1 / 4) :: b64Char (b1 % 4 * 16 + b2 / 16) ::
    b64Char (b2 % 16 * 4 + b3 / 64) :: b64Char (b3 % 64) :: b64EncodeNoPad rest

/-- The `=` padding the standard encoding appends after a trailing
one- or two-byte block. -/
def b64Pad : List ℕ → List Char
  | [] => []
  | [_] => ['=', '=']
  | [_, _] => ['=']
  | _ :: _ :: _ :: rest => b64Pad rest

/-- Standard padded base64 (`btoa`): the unpadded characters followed by
the final block's padding. -/
def b64Encode (l : List ℕ) : List Char := b64EncodeNoPad l ++ b64Pad l

/-- `.replace(/={1,2}$/, '')`: greedily strip up to two `=` from the end. -/
def stripB64Padding (l : List Char) : List Char :=
  match l.reverse with
  | '=' :: '=' :: r => r.reverse
  | '=' :: r => r.reverse
  | _ => l

/-- Modelled from the spec: `unicodeToBase64` (imported from the utils
package, whose source is not among the given files) — "a reversible
text-to-base64 transform that is safe for non-ASCII code points", realized
as standard base64 of the UTF-8 bytes of the string. -/
def unicodeToBase64 (s : String) : List Char :=
  b64Encode (utf8Encode s.data)

/-- `computeTracestateValue` (utils.ts) with its mutation of the argument
made explicit: the first component is the caller's object after the two
`x = x || null` assignments, the second the returned header value. -/
def computeTracestateValueMut (d : TracestateData) : TracestateData × String :=
  let d2 : TracestateData :=
    { d with environment := orNull d.environment, release := orNull d.release }
  (d2, String.mk (stripB64Padding
    (unicodeToBase64 (String.mk (jsonStringifyTracestate d2)))))

/-- The return value of `computeTracestateValue`. -/
def computeTracestateValue (d : TracestateData) : String :=
  (computeTracestateValueMut d).2

/-- A parsed JSON value of the shapes the tracestate object contains. -/
inductive JVal where
  | null : JVal
  | str : String → JVal
deriving DecidableEq

/-- The view of a normalized `string | null` field as a parsed JSON value. -/
def jvalOfJSStr : JSStr → JVal
  | .str s => .str s
  | _ => .null

/-- The serialized form of a parsed JSON value, for the round-trip. -/
def jvalEnc : JVal → List Char
  | .null => ['n', 'u', 'l', 'l']
  | .str s => quoteJson s

/-- Value of a hex digit (JSON allows either case). -/
def hexVal? (c : Char) : Option ℕ :=
  if '0' ≤ c ∧ c ≤ '9' then some (c.toNat - 48)
  else if 'a' ≤ c ∧ c ≤ 'f' then some (c.toNat - 87)
  else if 'A' ≤ c ∧ c ≤ 'F' then some (c.toNat - 55)
  else none

/-- Decoding-side value of one base64 character. -/
def b64Val? (c : Char) : Option ℕ :=
  if 'A' ≤ c ∧ c ≤ 'Z' then some (c.toNat - 65)
  else if 'a' ≤ c ∧ c ≤ 'z' then some (c.toNat - 71)
  else if '0' ≤ c ∧ c ≤ '9' then some (c.toNat + 4)
  else if c = '+' then some 62
  else if c = '/' then some 63
  else none

/-- Base64 decoding tolerating absent padding (a final block of two or
three characters yields one or two bytes), as the relevant decoders do. -/
def b64Decode : List Char → Option (List ℕ)
  | [] => some []
  | [c1, c2] =>
    match b64Val? c1, b64Val? c2 with
    | some v1, some v2 => some [v1 * 4 + v2 / 16]
    | _, _ => none
  | [c1, c2, c3] =>
    match b64Val? c1, b64Val? c2, b64Val? c3 with
    | some v1, some v2, some v3 =>
      some [v1 * 4 + v2 / 16, v2 % 16 * 16 + v3 / 4]
    | _, _, _ => none
  | c1 :: c2 :: c3 :: c4 :: rest =>
    match b64Val? c1, b64Val? c2, b64Val? c3, b64Val? c4 with
    | some v1, some v2, some v3, some v4 =>
      (b64Decode rest).map (fun bs =>
        (v1 * 4 + v2 / 16) :: (v2 % 16 * 16 + v3 / 4) :: (v3 % 4 * 64 + v4) :: bs)
    | _, _, _, _ => none
  | [_] => none

/-- Parse a `\uXXXX` escape tail. -/
def parseJStringU : List Char → Option (Char × List Char)
  | h1 :: h2 :: h3 :: h4 :: rest =>
    match hexVal? h1, hexVal? h2, hexVal? h3, hexVal? h4 with
    | some v1, some v2, some v3, some v4 =>
      some (Char.ofNat (v1 * 4096 + v2 * 256 + v3 * 16 + v4), rest)
    | _, _, _, _ => none
  | _ => none

/-- Parse the character after a backslash: the escapes `JSON.parse`
accepts. -/
def parseJStringEsc (e : Char) (rest : List Char) : Option (Char × List Char) :=
  if e = '"' then some ('"', rest)
  else if e = '\\' then some ('\\', rest)
  else if e = '/' then some ('/', rest)
  else if e = 'b' then some ('\x08', rest)
  else if e = 'f' then some ('\x0c', rest)
  else if e = 'n' then some ('\n', rest)
  else if e = 'r' then some ('\r', rest)
  else if e = 't' then some ('\t', rest)
  else if e = 'u' then parseJStringU rest
  else none

/-- One step of string-body parsing: `some (none, rest)` is the closing
quote, `some (some c, rest)` one decoded character. -/
def parseJStringStep : List Char → Option (Option Char × List Char)
  | [] => none
  | c :: rest =>
    if c = '"' then some (none, rest)
    else if c = '\\' then
      match rest with
      | e :: rest₁ => (parseJStringEsc e rest₁).map (fun p => (some p.1, p.2))
      | [] => none
    else some (some c, rest)

/-- String-body loop: consume characters until the closing quote (the fuel
only bounds the recursion; each step consumes at least one character). -/
def parseJStringLoop : ℕ → List Char → Option (List Char × List Char)
  | 0, _ => none
  | fuel + 1, l =>
    match parseJStringStep l with
    | none => none
    | some (none, rest) => some ([], rest)
    | some (some c, rest) =>
      (parseJStringLoop fuel rest).map (fun p => (c :: p.1, p.2))

/-- JSON string-body parsing: consume until the closing quote, undoing the
escapes `JSON.parse` accepts. -/
def parseJStringBody (l : List Char) : Option (List Char × List Char) :=
  parseJStringLoop l.length l

/-- A JSON string literal: opening quote then body. -/
def parseJString : List Char → Option (String × List Char)
  | '"' :: rest => (parseJStringBody rest).map (fun p => (String.mk p.1, p.2))
  | _ => none

/-- A JSON value of the shapes produced here: `null` or a string. -/
def parseJVal (l : List Char) : Option (JVal × List Char) :=
  match l with
  | 'n' :: 'u' :: 'l' :: 'l' :: rest => some (.null, rest)
  | _ => (parseJString l).map (fun p => (.str p.1, p.2))

/-- Comma-separated `"key":value` members (fuel bounds the recursion). -/
def parseJMembers : ℕ → List Char → Option (List (String × JVal) × List Char)
  | 0, _ => none
  | fuel + 1, l =>
    (parseJString l).bind fun kp =>
      match kp.2 with
      | ':' :: r2 =>
        (parseJVal r2).bind fun vp =>
          match vp.2 with
          | ',' :: r4 =>
            (parseJMembers fuel r4).map (fun p => ((kp.1, vp.1) :: p.1, p.2))
          | _ => some ([(kp.1, vp.1)], vp.2)
      | _ => none

/-- A JSON object with at least one member and string-or-null values (the
shape the encoder produces: its objects always carry four members). -/
def parseJObject (l : List Char) : Option (List (String × JVal) × List Char) :=
  match l with
  | '{' :: rest =>
    (parseJMembers (rest.length + 1) rest).bind fun p =>
      match p.2 with
      | '}' :: r2 => some (p.1, r2)
      | _ => none
  | _ => none

/-- The decoding pipeline of the round-trip claim: base64-decode, UTF-8
decode, JSON-parse the whole string into the member list. -/
def decodeTracestate (sv : String) : Option (List (String × JVal)) :=
  (b64Decode sv.data).bind fun bytes =>
    (utf8Decode bytes).bind fun cps =>
      (parseJObject (cps.map Char.ofNat)).bind fun p =>
        if p.2 = [] then some p.1 else none

/-- C4: `isValidSampleRate` accepts exactly the booleans and the non-NaN
numbers in the closed interval `[0, 1]`; every other modelled value
(`undefined`, `null`, functions, NaN, out-of-range numbers) is rejected.
Being a total function, it cannot throw. -/
theorem isValidSampleRate_eq_spec :
    ∀ v : JSVal, isValidSampleRate v = isValidRateSpec v := by
  intro v
  cases v with
  | undefined => rfl
  | null => rfl
  | fn r => rfl
  | bool b => cases b <;> decide
  | num n =>
    cases n with
    | nan => rfl
    | fin q =>
      simp only [isValidSampleRate, isValidRateSpec, jsIsNaN, jsToNumber,
        jsLtNum, jsGtNum, jsTypeofNumber, jsTypeofBoolean, Bool.or_self,
        Bool.not_true, Bool.not_false, Bool.false_or, Bool.or_false,
        Bool.true_or, if_false]
      by_cases hq0 : q < 0
      · have hno : ¬(0 ≤ q ∧ q ≤ 1) := fun h => absurd hq0 (not_lt.mpr h.1)
        simp [hq0, hno]
      · by_cases hq1 : 1 < q
        · have hno : ¬(0 ≤ q ∧ q ≤ 1) := fun h => absurd hq1 (not_lt.mpr h.2)
          simp [hq0, hq1, hno]
        · have h0 : 0 ≤ q := not_lt.mp hq0
          have h1 : q ≤ 1 := not_lt.mp hq1
          simp [hq0, hq1, h0, h1]

/-- C3: when tracing is disabled (neither `tracesSampler` nor
`tracesSampleRate` is present in the options), the sampling pass forces
`sampled = false` and records no sampling metadata, for every transaction
(pre-set `sampled` included), context, draw, and client state. -/
theorem tracing_disabled_forces_drop (hc : Bool) (o : Options)
    (t : Transaction) (ctx : SamplingContext) (draw : ℚ)
    (h : hasTracingEnabled o = false) :
    (sample hc o t ctx draw).sampled = some false ∧
    (sample hc o t ctx draw).metadata = t.metadata ∧
    (sample hc o t ctx draw).recorder = t.recorder := by
  simp [sample, h]

/-- Witness for C3 at a concrete input: options with no sampler and no
rate, a transaction arriving with `sampled = true` and pre-existing
metadata. -/
theorem tracing_disabled_forces_drop_witness :
    (sample true ⟨none, none, none⟩
        ⟨some true, some ⟨.Rate, none⟩, some .undefined⟩ ⟨some true⟩ 0).sampled
      = some false ∧
    (sample true ⟨none, none, none⟩
        ⟨some true, some ⟨.Rate, none⟩, some .undefined⟩ ⟨some true⟩ 0).metadata
      = some ⟨.Rate, none⟩ ∧
    (sample true ⟨none, none, none⟩
        ⟨some true, some ⟨.Rate, none⟩, some .undefined⟩ ⟨some true⟩ 0).recorder
      = some .undefined :=
  tracing_disabled_forces_drop true ⟨none, none, none⟩
    ⟨some true, some ⟨.Rate, none⟩, some .undefined⟩ ⟨some true⟩ 0 rfl

/-- C2 counterexample: the claim "a `sampled` field once set to a boolean is
never overwritten by a sampling pass, for any configuration (including
tracing disabled or no client)" is false. With a client present but tracing
disabled, a transaction arriving with `sampled = true` leaves the pass with
`sampled = false`. -/
theorem preset_sampled_overwritten_when_disabled :
    (⟨some true, none, none⟩ : Transaction).sampled = some true ∧
    (sample true ⟨none, none, none⟩ ⟨some true, none, none⟩ ⟨none⟩ 0).sampled
      = some false :=
  ⟨rfl, rfl⟩

/-- C2 amended: provided a client is present and tracing is enabled, a
transaction whose `sampled` field is already a boolean leaves the sampling
pass with that same value, provenance `Explicit` and no recorded rate, and
its recorder untouched. -/
theorem explicit_sampled_preserved (hc : Bool) (o : Options)
    (t : Transaction) (ctx : SamplingContext) (draw : ℚ) (b : Bool)
    (hs : t.sampled = some b) (hcl : hc = true)
    (hen : hasTracingEnabled o = true) :
    (sample hc o t ctx draw).sampled = some b ∧
    (sample hc o t ctx draw).metadata =
      some ⟨.Explicit, none⟩ ∧
    (sample hc o t ctx draw).recorder = t.recorder := by
  subst hcl
  simp [sample, hen, hs]

/-- Witness for the amended C2: explicit `sampled = false` under a
configured rate of 1 stays `false` with provenance `Explicit`. -/
theorem explicit_sampled_preserved_witness :
    (sample true ⟨none, some (.num (.fin 1)), none⟩
        ⟨some false, none, none⟩ ⟨none⟩ 0).sampled = some false ∧
    (sample true ⟨none, some (.num (.fin 1)), none⟩
        ⟨some false, none, none⟩ ⟨none⟩ 0).metadata =
      some ⟨.Explicit, none⟩ ∧
    (sample true ⟨none, some (.num (.fin 1)), none⟩
        ⟨some false, none, none⟩ ⟨none⟩ 0).recorder = none :=
  explicit_sampled_preserved true ⟨none, some (.num (.fin 1)), none⟩
    ⟨some false, none, none⟩ ⟨none⟩ 0 false rfl rfl rfl

/-- C1: with an undecided transaction, a client, and tracing enabled, the
rate sources are consulted in strict precedence. If `options.tracesSampler`
is a function, provenance is `Sampler` with the numeric-cast return value
recorded, and the result is independent of both `tracesSampleRate` and
`parentSampled`. Otherwise, if the context carries a defined
`parentSampled`, provenance is `Inheritance` and the result is independent
of the `tracesSampleRate` value. Otherwise provenance is `Rate` with the
numeric-cast configured rate recorded. -/
theorem sampling_source_precedence (hc : Bool) (o : Options)
    (t : Transaction) (ctx : SamplingContext) (draw : ℚ)
    (hs : t.sampled = none) (hcl : hc = true)
    (hen : hasTracingEnabled o = true) :
    (jsTypeofFunction (propGet o.tracesSampler) = true →
      (sample hc o t ctx draw).metadata =
        some ⟨.Sampler,
          some (jsToNumber (jsCall (propGet o.tracesSampler)))⟩ ∧
      ∀ r₁ r₂ ps₁ ps₂,
        sample hc { o with tracesSampleRate := r₁ } t ⟨ps₁⟩ draw =
        sample hc { o with tracesSampleRate := r₂ } t ⟨ps₂⟩ draw)
    ∧ (jsTypeofFunction (propGet o.tracesSampler) = false →
       ∀ b, ctx.parentSampled = some b →
      (sample hc o t ctx draw).metadata =
        some ⟨.Inheritance, none⟩ ∧
      ∀ r₁ r₂ : JSVal,
        sample hc { o with tracesSampleRate := some r₁ } t ctx draw =
        sample hc { o with tracesSampleRate := some r₂ } t ctx draw)
    ∧ (jsTypeofFunction (propGet o.tracesSampler) = false →
       ctx.parentSampled = none →
      (sample hc o t ctx draw).metadata =
        some ⟨.Rate, some (jsToNumber (propGet o.tracesSampleRate))⟩) := by
  subst hcl
  refine ⟨fun hf => ⟨?_, fun r₁ r₂ ps₁ ps₂ => ?_⟩,
    fun hf b hb => ⟨?_, fun r₁ r₂ => ?_⟩, fun hf hp => ?_⟩
  · simp [sample, hen, hs, hf, apply_ite Transaction.metadata]
  · have hsome : o.tracesSampler.isSome := by
      cases hsam : o.tracesSampler with
      | none => simp [propGet, hsam, jsTypeofFunction] at hf
      | some v => simp
    simp [sample, hasTracingEnabled, hsome, hs, hf, maxSpansArg]
  · simp [sample, hen, hs, hf, hb, apply_ite Transaction.metadata]
  · simp [sample, hasTracingEnabled, hs, hf, hb, maxSpansArg]
  · simp [sample, hen, hs, hf, hp, apply_ite Transaction.metadata]

/-- Witness for C1 at a concrete input: a sampler returning `true` together
with a configured rate of 0 and an inherited `parentSampled = false`; the
sampler wins and its numeric-cast return 1 is recorded. -/
theorem sampling_source_precedence_witness :
    (sample true ⟨some (.fn (.bool true)), some (.num (.fin 0)), none⟩
        ⟨none, none, none⟩ ⟨some false⟩ 0).metadata =
      some ⟨.Sampler, some (.fin 1)⟩ :=
  ((sampling_source_precedence true
      ⟨some (.fn (.bool true)), some (.num (.fin 0)), none⟩
      ⟨none, none, none⟩ ⟨some false⟩ 0 rfl rfl rfl).1 rfl).1

/-- C5: with an undecided transaction, a client, and a configured sampler
returning `1` or `true`, every draw in `[0, 1)` keeps the transaction:
`sampled = true` and the span recorder is initialized with the configured
`_experiments.maxSpans` value (the boolean coerces to 1 for the
strict-less-than roll). -/
theorem sampler_one_always_keeps (hc : Bool) (o : Options)
    (t : Transaction) (ctx : SamplingContext) (draw : ℚ) (ret : JSVal)
    (hs : t.sampled = none) (hcl : hc = true)
    (hf : o.tracesSampler = some (.fn ret))
    (hret : ret = .num (.fin 1) ∨ ret = .bool true)
    (hd0 : 0 ≤ draw) (hd1 : draw < 1) :
    (sample hc o t ctx draw).sampled = some true ∧
    (sample hc o t ctx draw).recorder = some (maxSpansArg o) := by
  subst hcl
  rcases hret with h | h <;> subst h <;>
    simp [sample, hasTracingEnabled, hf, hs, propGet, jsTypeofFunction,
      jsCall, isValidSampleRate, jsIsNaN, jsToNumber, jsTypeofNumber,
      jsTypeofBoolean, jsLtNum, jsGtNum, jsFalsy, jsDrawLt, hd1] <;>
    norm_num

/-- Witness for C5: a sampler returning `true`, `maxSpans` configured as 5,
draw 1/2; the transaction is kept and the recorder receives 5. -/
theorem sampler_one_always_keeps_witness :
    (sample true ⟨some (.fn (.bool true)), none, some ⟨.num (.fin 5)⟩⟩
        ⟨none, none, none⟩ ⟨none⟩ (1/2)).sampled = some true ∧
    (sample true ⟨some (.fn (.bool true)), none, some ⟨.num (.fin 5)⟩⟩
        ⟨none, none, none⟩ ⟨none⟩ (1/2)).recorder = some (.num (.fin 5)) :=
  sampler_one_always_keeps true
    ⟨some (.fn (.bool true)), none, some ⟨.num (.fin 5)⟩⟩
    ⟨none, none, none⟩ ⟨none⟩ (1/2) (.bool true) rfl rfl rfl
    (Or.inr rfl) (by norm_num) (by norm_num)

/-- C6: with an undecided transaction, a client, and a configured sampler
whose return value is `0`, `false`, or fails validation, every draw yields
`sampled = false`, the recorder is not initialized, and the outcome does
not depend on the draw (no dice roll). -/
theorem sampler_zero_or_invalid_drops (hc : Bool) (o : Options)
    (t : Transaction) (ctx : SamplingContext) (ret : JSVal)
    (hs : t.sampled = none) (hcl : hc = true)
    (hf : o.tracesSampler = some (.fn ret))
    (hbad : isValidSampleRate ret = false ∨
      ret = .num (.fin 0) ∨ ret = .bool false) :
    ∀ draw : ℚ,
      (sample hc o t ctx draw).sampled = some false ∧
      (sample hc o t ctx draw).recorder = t.recorder ∧
      sample hc o t ctx draw = sample hc o t ctx 0 := by
  subst hcl
  intro draw
  rcases hbad with h | h | h
  · simp [sample, hasTracingEnabled, hf, hs, propGet, jsTypeofFunction,
      jsCall, h]
  · subst h
    simp [sample, hasTracingEnabled, hf, hs, propGet, jsTypeofFunction,
      jsCall, isValidSampleRate, jsIsNaN, jsToNumber, jsTypeofNumber,
      jsTypeofBoolean, jsLtNum, jsGtNum, jsFalsy]
  · subst h
    simp [sample, hasTracingEnabled, hf, hs, propGet, jsTypeofFunction,
      jsCall, isValidSampleRate, jsIsNaN, jsToNumber, jsTypeofNumber,
      jsTypeofBoolean, jsLtNum, jsGtNum, jsFalsy]

/-- Witness for C6: a sampler returning NaN (failing validation) with draw
1/2; the transaction is dropped and the recorder stays uninitialized. -/
theorem sampler_zero_or_invalid_drops_witness :
    (sample true ⟨some (.fn (.num .nan)), none, none⟩
        ⟨none, none, none⟩ ⟨none⟩ (1/2)).sampled = some false ∧
    (sample true ⟨some (.fn (.num .nan)), none, none⟩
        ⟨none, none, none⟩ ⟨none⟩ (1/2)).recorder = none ∧
    sample true ⟨some (.fn (.num .nan)), none, none⟩
        ⟨none, none, none⟩ ⟨none⟩ (1/2) =
      sample true ⟨some (.fn (.num .nan)), none, none⟩
        ⟨none, none, none⟩ ⟨none⟩ 0 :=
  sampler_zero_or_invalid_drops true
    ⟨some (.fn (.num .nan)), none, none⟩ ⟨none, none, none⟩ ⟨none⟩
    (.num .nan) rfl rfl rfl (Or.inl rfl) (1/2)

/-! ### Helper lemmas for the regex matcher -/

theorem opt_isSome_orElse {α : Type} (a b : Option α) :
    (a <|> b).isSome = (a.isSome || b.isSome) := by
  cases a <;> cases b <;> rfl

theorem opt_some_orElse {α : Type} (x : α) (b : Option α) :
    ((some x : Option α) <|> b) = some x := rfl

theorem opt_none_orElse {α : Type} (b : Option α) :
    ((none : Option α) <|> b) = b := rfl

theorem isWsChar_elim {c : Char} (h : isWsChar c = true) :
    c = ' ' ∨ c = '\t' := by
  simpa [isWsChar] using h

theorem ws_not_hex {c : Char} (h : isWsChar c = true) : isHexChar c = false := by
  rcases isWsChar_elim h with rfl | rfl <;> decide

theorem hex_not_ws {c : Char} (h : isHexChar c = true) : isWsChar c = false := by
  cases hw : isWsChar c
  · rfl
  · rw [ws_not_hex hw] at h
    exact absurd h (by simp)

theorem takeHex_append {n : ℕ} {t rest : List Char} (hlen : t.length = n)
    (hhex : t.all isHexChar = true) : takeHex n (t ++ rest) = some (t, rest) := by
  unfold takeHex
  rw [List.take_left' hlen, List.drop_left' hlen]
  simp [hlen, hhex]

theorem takeHex_some {n : ℕ} {l t rest : List Char}
    (h : takeHex n l = some (t, rest)) :
    l = t ++ rest ∧ t.length = n ∧ t.all isHexChar = true := by
  unfold takeHex at h
  split_ifs at h with hc
  simp only [Bool.and_eq_true, decide_eq_true_eq] at hc
  rw [Option.some.injEq, Prod.mk.injEq] at h
  obtain ⟨rfl, rfl⟩ := h
  exact ⟨(List.take_append_drop n l).symm, hc.1, hc.2⟩

theorem takeHex_none_head {n : ℕ} {c : Char} {l : List Char} (hn : 0 < n)
    (hc : isHexChar c = false) : takeHex n (c :: l) = none := by
  unfold takeHex
  obtain ⟨m, rfl⟩ : ∃ m, n = m + 1 := ⟨n - 1, by omega⟩
  simp [List.take_succ_cons, hc]

theorem takeHex_ws_none {n : ℕ} {l : List Char} (hn : 0 < n)
    (hws : l.all isWsChar = true) : takeHex n l = none := by
  cases l with
  | nil =>
    unfold takeHex
    rw [List.take_nil]
    simp [Nat.ne_of_lt hn]
  | cons c rest =>
    simp only [List.all_cons, Bool.and_eq_true] at hws
    exact takeHex_none_head hn (ws_not_hex hws.1)

theorem dropWhile_ws_append {w l : List Char} (hw : w.all isWsChar = true) :
    (w ++ l).dropWhile isWsChar = l.dropWhile isWsChar := by
  induction w with
  | nil => rfl
  | cons c cs ih =>
    simp only [List.all_cons, Bool.and_eq_true] at hw
    simp [List.dropWhile_cons, hw.1, ih hw.2]

theorem dropWhile_ws_nil {l : List Char} (h : l.all isWsChar = true) :
    l.dropWhile isWsChar = [] := by
  induction l with
  | nil => rfl
  | cons c cs ih =>
    simp only [List.all_cons, Bool.and_eq_true] at h
    simp [List.dropWhile_cons, h.1, ih h.2]

theorem dropWhile_ws_cons_neg {c : Char} {l : List Char}
    (h : isWsChar c = false) : (c :: l).dropWhile isWsChar = c :: l := by
  simp [List.dropWhile_cons, h]

theorem string_mk_data (s : String) : String.mk s.data = s := rfl

theorem matchEnd_isSome {caps : TraceparentCaps} {l : List Char} :
    (matchEnd caps l).isSome = true ↔ l.all isWsChar = true := by
  unfold matchEnd
  split_ifs with h <;> simp [h]

theorem matchG3_isSome {caps : TraceparentCaps} {l : List Char} :
    (matchG3 caps l).isSome = true ↔
      ∃ f w2, l = f ++ w2 ∧ (f = [] ∨ f = ['0'] ∨ f = ['1']) ∧
        w2.all isWsChar = true := by
  unfold matchG3
  rw [opt_isSome_orElse, Bool.or_eq_true]
  constructor
  · rintro (h | h)
    · cases l with
      | nil => simp at h
      | cons c rest =>
        simp only at h
        split_ifs at h with hc
        · simp only [Bool.or_eq_true, decide_eq_true_eq] at hc
          refine ⟨[c], rest, rfl, ?_, matchEnd_isSome.mp h⟩
          rcases hc with rfl | rfl
          · exact Or.inr (Or.inl rfl)
          · exact Or.inr (Or.inr rfl)
        · simp at h
    · exact ⟨[], l, rfl, Or.inl rfl, matchEnd_isSome.mp h⟩
  · rintro ⟨f, w2, rfl, hf, hw⟩
    rcases hf with rfl | rfl | rfl
    · exact Or.inr (matchEnd_isSome.mpr hw)
    · exact Or.inl (by simpa using matchEnd_isSome.mpr hw)
    · exact Or.inl (by simpa using matchEnd_isSome.mpr hw)

theorem matchHyp2_isSome {caps : TraceparentCaps} {l : List Char} :
    (matchHyp2 caps l).isSome = true ↔
      ∃ h2 f w2, l = h2 ++ (f ++ w2) ∧ (h2 = [] ∨ h2 = ['-']) ∧
        (f = [] ∨ f = ['0'] ∨ f = ['1']) ∧ w2.all isWsChar = true := by
  unfold matchHyp2
  rw [opt_isSome_orElse, Bool.or_eq_true]
  constructor
  · rintro (h | h)
    · cases l with
      | nil => simp at h
      | cons c rest =>
        simp only at h
        split_ifs at h with hc
        · subst hc
          obtain ⟨f, w2, rfl, hf, hw⟩ := matchG3_isSome.mp h
          exact ⟨['-'], f, w2, rfl, Or.inr rfl, hf, hw⟩
        · simp at h
    · obtain ⟨f, w2, rfl, hf, hw⟩ := matchG3_isSome.mp h
      exact ⟨[], f, w2, rfl, Or.inl rfl, hf, hw⟩
  · rintro ⟨h2, f, w2, rfl, hh, hf, hw⟩
    rcases hh with rfl | rfl
    · exact Or.inr (matchG3_isSome.mpr ⟨f, w2, rfl, hf, hw⟩)
    · exact Or.inl (by simpa using matchG3_isSome.mpr ⟨f, w2, rfl, hf, hw⟩)

theorem matchG2_isSome {caps : TraceparentCaps} {l : List Char} :
    (matchG2 caps l).isSome = true ↔
      ∃ p h2 f w2, l = p ++ (h2 ++ (f ++ w2)) ∧
        (p = [] ∨ (p.length = 16 ∧ p.all isHexChar = true)) ∧
        (h2 = [] ∨ h2 = ['-']) ∧
        (f = [] ∨ f = ['0'] ∨ f = ['1']) ∧ w2.all isWsChar = true := by
  unfold matchG2
  rw [opt_isSome_orElse, Bool.or_eq_true]
  constructor
  · rintro (h | h)
    · cases htk : takeHex 16 l with
      | none => rw [htk] at h; simp at h
      | some pr =>
        obtain ⟨t, rest⟩ := pr
        rw [htk] at h
        simp only at h
        obtain ⟨rfl, hlen, hhex⟩ := takeHex_some htk
        obtain ⟨h2, f, w2, rfl, hh, hf, hw⟩ := matchHyp2_isSome.mp h
        exact ⟨t, h2, f, w2, rfl, Or.inr ⟨hlen, hhex⟩, hh, hf, hw⟩
    · obtain ⟨h2, f, w2, rfl, hh, hf, hw⟩ := matchHyp2_isSome.mp h
      exact ⟨[], h2, f, w2, rfl, Or.inl rfl, hh, hf, hw⟩
  · rintro ⟨p, h2, f, w2, rfl, hp, hh, hf, hw⟩
    rcases hp with rfl | ⟨hlen, hhex⟩
    · exact Or.inr (matchHyp2_isSome.mpr ⟨h2, f, w2, rfl, hh, hf, hw⟩)
    · refine Or.inl ?_
      rw [takeHex_append hlen hhex]
      simpa using matchHyp2_isSome.mpr ⟨h2, f, w2, rfl, hh, hf, hw⟩

theorem matchHyp1_isSome {caps : TraceparentCaps} {l : List Char} :
    (matchHyp1 caps l).isSome = true ↔
      ∃ h1 p h2 f w2, l = h1 ++ (p ++ (h2 ++ (f ++ w2))) ∧
        (h1 = [] ∨ h1 = ['-']) ∧
        (p = [] ∨ (p.length = 16 ∧ p.all isHexChar = true)) ∧
        (h2 = [] ∨ h2 = ['-']) ∧
        (f = [] ∨ f = ['0'] ∨ f = ['1']) ∧ w2.all isWsChar = true := by
  unfold matchHyp1
  rw [opt_isSome_orElse, Bool.or_eq_true]
  constructor
  · rintro (h | h)
    · cases l with
      | nil => simp at h
      | cons c rest =>
        simp only at h
        split_ifs at h with hc
        · subst hc
          obtain ⟨p, h2, f, w2, rfl, hp, hh, hf, hw⟩ := matchG2_isSome.mp h
          exact ⟨['-'], p, h2, f, w2, rfl, Or.inr rfl, hp, hh, hf, hw⟩
        · simp at h
    · obtain ⟨p, h2, f, w2, rfl, hp, hh, hf, hw⟩ := matchG2_isSome.mp h
      exact ⟨[], p, h2, f, w2, rfl, Or.inl rfl, hp, hh, hf, hw⟩
  · rintro ⟨h1, p, h2, f, w2, rfl, hh1, hp, hh, hf, hw⟩
    rcases hh1 with rfl | rfl
    · exact Or.inr (matchG2_isSome.mpr ⟨p, h2, f, w2, rfl, hp, hh, hf, hw⟩)
    · exact Or.inl
        (by simpa using matchG2_isSome.mpr ⟨p, h2, f, w2, rfl, hp, hh, hf, hw⟩)

theorem matchG1_isSome {l : List Char} :
    (matchG1 l).isSome = true ↔
      ∃ t h1 p h2 f w2, l = t ++ (h1 ++ (p ++ (h2 ++ (f ++ w2)))) ∧
        (t = [] ∨ (t.length = 32 ∧ t.all isHexChar = true)) ∧
        (h1 = [] ∨ h1 = ['-']) ∧
        (p = [] ∨ (p.length = 16 ∧ p.all isHexChar = true)) ∧
        (h2 = [] ∨ h2 = ['-']) ∧
        (f = [] ∨ f = ['0'] ∨ f = ['1']) ∧ w2.all isWsChar = true := by
  unfold matchG1
  rw [opt_isSome_orElse, Bool.or_eq_true]
  constructor
  · rintro (h | h)
    · cases htk : takeHex 32 l with
      | none => rw [htk] at h; simp at h
      | some pr =>
        obtain ⟨t, rest⟩ := pr
        rw [htk] at h
        simp only at h
        obtain ⟨rfl, hlen, hhex⟩ := takeHex_some htk
        obtain ⟨h1, p, h2, f, w2, rfl, hh1, hp, hh, hf, hw⟩ :=
          matchHyp1_isSome.mp h
        exact ⟨t, h1, p, h2, f, w2, rfl, Or.inr ⟨hlen, hhex⟩, hh1, hp, hh, hf, hw⟩
    · obtain ⟨h1, p, h2, f, w2, rfl, hh1, hp, hh, hf, hw⟩ :=
        matchHyp1_isSome.mp h
      exact ⟨[], h1, p, h2, f, w2, rfl, Or.inl rfl, hh1, hp, hh, hf, hw⟩
  · rintro ⟨t, h1, p, h2, f, w2, rfl, ht, hh1, hp, hh, hf, hw⟩
    rcases ht with rfl | ⟨hlen, hhex⟩
    · exact Or.inr (matchHyp1_isSome.mpr ⟨h1, p, h2, f, w2, rfl, hh1, hp, hh, hf, hw⟩)
    · refine Or.inl ?_
      rw [takeHex_append hlen hhex]
      simpa using matchHyp1_isSome.mpr ⟨h1, p, h2, f, w2, rfl, hh1, hp, hh, hf, hw⟩

theorem allNonWs_components {t h1 p h2 f : List Char}
    (ht : t = [] ∨ (t.length = 32 ∧ t.all isHexChar = true))
    (hh1 : h1 = [] ∨ h1 = ['-'])
    (hp : p = [] ∨ (p.length = 16 ∧ p.all isHexChar = true))
    (hh : h2 = [] ∨ h2 = ['-'])
    (hf : f = [] ∨ f = ['0'] ∨ f = ['1']) :
    (t ++ (h1 ++ (p ++ (h2 ++ f)))).all (fun c => !isWsChar c) = true := by
  have hexNW : ∀ l : List Char, l.all isHexChar = true →
      l.all (fun c => !isWsChar c) = true := by
    intro l hl
    rw [List.all_eq_true] at hl ⊢
    intro c hc
    simp [hex_not_ws (hl c hc)]
  simp only [List.all_append, Bool.and_eq_true]
  refine ⟨?_, ?_, ?_, ?_, ?_⟩
  · rcases ht with rfl | ⟨_, hx⟩
    · rfl
    · exact hexNW _ hx
  · rcases hh1 with rfl | rfl
    · rfl
    · decide
  · rcases hp with rfl | ⟨_, hx⟩
    · rfl
    · exact hexNW _ hx
  · rcases hh with rfl | rfl
    · rfl
    · decide
  · rcases hf with rfl | rfl | rfl
    · rfl
    · decide
    · decide

theorem nonws_head_dropWhile {m w : List Char}
    (hm : m.all (fun c => !isWsChar c) = true) :
    (m ++ w).dropWhile isWsChar =
      if m = [] then w.dropWhile isWsChar else m ++ w := by
  cases m with
  | nil => simp
  | cons c cs =>
    simp only [List.all_cons, Bool.and_eq_true, Bool.not_eq_true'] at hm
    simp [List.dropWhile_cons, hm.1]

theorem extract_isSome_eq_match (s : String) :
    (extractTraceparentData s).isSome = (traceparentMatch s).isSome := by
  unfold extractTraceparentData
  cases traceparentMatch s <;> rfl

theorem traceparent_isSome_iff (s : String) :
    (traceparentMatch s).isSome = true ↔ SpecGrammar s := by
  unfold traceparentMatch SpecGrammar
  constructor
  · intro h
    obtain ⟨t, h1, p, h2, f, w2, hdec, ht, hh1, hp, hh, hf, hw⟩ :=
      matchG1_isSome.mp h
    refine ⟨s.data.takeWhile isWsChar, t, h1, p, h2, f, w2, ?_,
      List.all_takeWhile, hw, ht, hh1, hp, hh, hf⟩
    conv_lhs => rw [← List.takeWhile_append_dropWhile isWsChar s.data]
    rw [hdec]
  · rintro ⟨w1, t, h1, p, h2, f, w2, hdec, hw1, hw2, ht, hh1, hp, hh, hf⟩
    have hmid := allNonWs_components ht hh1 hp hh hf
    have hsplit : t ++ (h1 ++ (p ++ (h2 ++ (f ++ w2)))) =
        (t ++ (h1 ++ (p ++ (h2 ++ f)))) ++ w2 := by
      simp [List.append_assoc]
    rw [hdec, dropWhile_ws_append hw1, hsplit, nonws_head_dropWhile hmid]
    by_cases hm : t ++ (h1 ++ (p ++ (h2 ++ f))) = []
    · rw [if_pos hm, dropWhile_ws_nil hw2]
      decide
    · rw [if_neg hm]
      exact matchG1_isSome.mpr
        ⟨t, h1, p, h2, f, w2, by simp [List.append_assoc], ht, hh1, hp, hh, hf, hw2⟩

theorem matchG3_ws (caps : TraceparentCaps) {l : List Char}
    (hw : l.all isWsChar = true) : matchG3 caps l = some caps := by
  unfold matchG3
  cases l with
  | nil => rfl
  | cons c rest =>
    have hw' := hw
    simp only [List.all_cons, Bool.and_eq_true] at hw'
    have h0 : ¬(c = '0') := by
      rcases isWsChar_elim hw'.1 with rfl | rfl <;> decide
    have h1 : ¬(c = '1') := by
      rcases isWsChar_elim hw'.1 with rfl | rfl <;> decide
    simp [h0, h1, matchEnd, hw'.1, hw'.2]

theorem matchHyp2_ws (caps : TraceparentCaps) {l : List Char}
    (hw : l.all isWsChar = true) : matchHyp2 caps l = some caps := by
  unfold matchHyp2
  cases l with
  | nil => simpa [opt_none_orElse] using matchG3_ws caps hw
  | cons c rest =>
    have hw' := hw
    simp only [List.all_cons, Bool.and_eq_true] at hw'
    have hc : ¬(c = '-') := by
      rcases isWsChar_elim hw'.1 with rfl | rfl <;> decide
    simpa [hc, opt_none_orElse] using matchG3_ws caps hw

theorem matchG2_ws (caps : TraceparentCaps) {l : List Char}
    (hw : l.all isWsChar = true) : matchG2 caps l = some caps := by
  unfold matchG2
  rw [takeHex_ws_none (by norm_num) hw]
  simpa [opt_none_orElse] using matchHyp2_ws caps hw

theorem matchHyp1_ws (caps : TraceparentCaps) {l : List Char}
    (hw : l.all isWsChar = true) : matchHyp1 caps l = some caps := by
  unfold matchHyp1
  cases l with
  | nil => simpa [opt_none_orElse] using matchG2_ws caps hw
  | cons c rest =>
    have hw' := hw
    simp only [List.all_cons, Bool.and_eq_true] at hw'
    have hc : ¬(c = '-') := by
      rcases isWsChar_elim hw'.1 with rfl | rfl <;> decide
    simpa [hc, opt_none_orElse] using matchG2_ws caps hw

theorem extract_ws (s : String) (hw : s.data.all isWsChar = true) :
    extractTraceparentData s = some ⟨none, none, none⟩ := by
  unfold extractTraceparentData traceparentMatch
  rw [dropWhile_ws_nil hw]
  rfl

theorem extract_one_hyphen (w1 w2 : String)
    (hw1 : w1.data.all isWsChar = true) (hw2 : w2.data.all isWsChar = true) :
    extractTraceparentData (w1 ++ "-" ++ w2) = some ⟨none, none, none⟩ := by
  have hdata : (w1 ++ "-" ++ w2).data = w1.data ++ ('-' :: w2.data) := by
    simp [String.data_append]
  unfold extractTraceparentData traceparentMatch
  rw [hdata, dropWhile_ws_append hw1, dropWhile_ws_cons_neg (by decide)]
  have hm : matchG1 ('-' :: w2.data) = some ⟨none, none, none⟩ := by
    unfold matchG1
    rw [takeHex_none_head (by norm_num) (by decide), opt_none_orElse]
    unfold matchHyp1
    simp [matchG2_ws _ hw2]
  rw [hm]
  rfl

theorem extract_two_hyphens (w1 w2 : String)
    (hw1 : w1.data.all isWsChar = true) (hw2 : w2.data.all isWsChar = true) :
    extractTraceparentData (w1 ++ "--" ++ w2) = some ⟨none, none, none⟩ := by
  have hdata : (w1 ++ "--" ++ w2).data = w1.data ++ ('-' :: '-' :: w2.data) := by
    simp [String.data_append]
  unfold extractTraceparentData traceparentMatch
  rw [hdata, dropWhile_ws_append hw1, dropWhile_ws_cons_neg (by decide)]
  have hg2 : matchG2 ⟨none, none, none⟩ ('-' :: w2.data) =
      some ⟨none, none, none⟩ := by
    unfold matchG2
    rw [takeHex_none_head (by norm_num) (by decide), opt_none_orElse]
    unfold matchHyp2
    simp [matchG3_ws _ hw2]
  have hm : matchG1 ('-' :: '-' :: w2.data) = some ⟨none, none, none⟩ := by
    unfold matchG1
    rw [takeHex_none_head (by norm_num) (by decide), opt_none_orElse]
    unfold matchHyp1
    simp [hg2]
  rw [hm]
  rfl

theorem takeHex_exact {n : ℕ} {l : List Char} (hlen : l.length = n)
    (hhex : l.all isHexChar = true) : takeHex n l = some (l, []) := by
  have h := @takeHex_append n l [] hlen hhex
  simpa using h

theorem matchG1_full {T S : List Char} {c : Char}
    (hT32 : T.length = 32) (hTh : T.all isHexChar = true)
    (hS16 : S.length = 16) (hSh : S.all isHexChar = true)
    (hc : c = '0' ∨ c = '1') :
    matchG1 (T ++ ('-' :: (S ++ ('-' :: [c])))) =
      some ⟨some T, some S, some c⟩ := by
  have h3 : matchG3 ⟨some T, some S, none⟩ [c] =
      some ⟨some T, some S, some c⟩ := by
    rcases hc with rfl | rfl <;> rfl
  have h2' : matchHyp2 ⟨some T, some S, none⟩ ('-' :: [c]) =
      some ⟨some T, some S, some c⟩ := by
    unfold matchHyp2
    simp [h3]
  have hg2 : matchG2 ⟨some T, none, none⟩ (S ++ ('-' :: [c])) =
      some ⟨some T, some S, some c⟩ := by
    unfold matchG2
    rw [takeHex_append hS16 hSh]
    simp [h2', opt_some_orElse]
  have hh1 : matchHyp1 ⟨some T, none, none⟩ ('-' :: (S ++ ('-' :: [c]))) =
      some ⟨some T, some S, some c⟩ := by
    unfold matchHyp1
    simp [hg2]
  unfold matchG1
  rw [takeHex_append hT32 hTh]
  simp [hh1, opt_some_orElse]

theorem matchG1_noflag {T S : List Char}
    (hT32 : T.length = 32) (hTh : T.all isHexChar = true)
    (hS16 : S.length = 16) (hSh : S.all isHexChar = true) :
    matchG1 (T ++ ('-' :: S)) = some ⟨some T, some S, none⟩ := by
  have h2' : matchHyp2 ⟨some T, some S, none⟩ [] =
      some ⟨some T, some S, none⟩ := rfl
  have hg2 : matchG2 ⟨some T, none, none⟩ S =
      some ⟨some T, some S, none⟩ := by
    unfold matchG2
    rw [takeHex_exact hS16 hSh]
    simp [h2', opt_some_orElse]
  have hh1 : matchHyp1 ⟨some T, none, none⟩ ('-' :: S) =
      some ⟨some T, some S, none⟩ := by
    unfold matchHyp1
    simp [hg2]
  unfold matchG1
  rw [takeHex_append hT32 hTh]
  simp [hh1, opt_some_orElse]

theorem extract_full (T S f : String)
    (hT32 : T.data.length = 32) (hTh : T.data.all isHexChar = true)
    (hS16 : S.data.length = 16) (hSh : S.data.all isHexChar = true)
    (hf : f = "0" ∨ f = "1") :
    extractTraceparentData (T ++ "-" ++ S ++ "-" ++ f) =
      some ⟨some T, some S, some (decide (f = "1"))⟩ := by
  obtain ⟨c, cs, hcons⟩ : ∃ c cs, T.data = c :: cs := by
    cases hTd : T.data with
    | nil => rw [hTd] at hT32; simp at hT32
    | cons c cs => exact ⟨c, cs, rfl⟩
  have hchex : isHexChar c = true := by
    rw [hcons, List.all_cons, Bool.and_eq_true] at hTh
    exact hTh.1
  rw [hcons] at hTh
  have hdata : (T ++ "-" ++ S ++ "-" ++ f).data =
      T.data ++ ('-' :: (S.data ++ ('-' :: f.data))) := by
    simp [String.data_append]
  unfold extractTraceparentData traceparentMatch
  rw [hdata, hcons, List.cons_append,
    dropWhile_ws_cons_neg (hex_not_ws hchex), ← List.cons_append, ← hcons]
  rcases hf with rfl | rfl
  · rw [show ("0" : String).data = ['0'] from rfl] at *
    rw [matchG1_full hT32 (hcons ▸ hTh) hS16 hSh (Or.inl rfl)]
    simp [string_mk_data]
  · rw [show ("1" : String).data = ['1'] from rfl] at *
    rw [matchG1_full hT32 (hcons ▸ hTh) hS16 hSh (Or.inr rfl)]
    simp [string_mk_data]

theorem extract_noflag (T S : String)
    (hT32 : T.data.length = 32) (hTh : T.data.all isHexChar = true)
    (hS16 : S.data.length = 16) (hSh : S.data.all isHexChar = true) :
    extractTraceparentData (T ++ "-" ++ S) =
      some ⟨some T, some S, none⟩ := by
  obtain ⟨c, cs, hcons⟩ : ∃ c cs, T.data = c :: cs := by
    cases hTd : T.data with
    | nil => rw [hTd] at hT32; simp at hT32
    | cons c cs => exact ⟨c, cs, rfl⟩
  have hchex : isHexChar c = true := by
    rw [hcons, List.all_cons, Bool.and_eq_true] at hTh
    exact hTh.1
  rw [hcons] at hTh
  have hdata : (T ++ "-" ++ S).data = T.data ++ ('-' :: S.data) := by
    simp [String.data_append]
  unfold extractTraceparentData traceparentMatch
  rw [hdata, hcons, List.cons_append,
    dropWhile_ws_cons_neg (hex_not_ws hchex), ← List.cons_append, ← hcons]
  rw [matchG1_noflag hT32 (hcons ▸ hTh) hS16 hSh]
  simp [string_mk_data]

/-- C7: `extractTraceparentData` returns a result exactly when the whole
input matches the anchored grammar (optional surrounding space/tab,
optional 32-hex trace id, optional hyphen, optional 16-hex span id,
optional hyphen, optional 0/1 digit); for every valid trace id `T`, span
id `S` and flag in 0/1 the string `T-S-flag` decodes to exactly those
fields with `parentSampled = (flag = 1)`, and with the flag absent
`parentSampled` is left undefined. Strings violating the grammar yield no
result at all. -/
theorem traceparent_grammar_roundtrip :
    (∀ s : String,
      (extractTraceparentData s).isSome = true ↔ SpecGrammar s)
    ∧ (∀ T S f : String,
        T.data.length = 32 → T.data.all isHexChar = true →
        S.data.length = 16 → S.data.all isHexChar = true →
        f = "0" ∨ f = "1" →
        extractTraceparentData (T ++ "-" ++ S ++ "-" ++ f) =
          some ⟨some T, some S, some (decide (f = "1"))⟩)
    ∧ (∀ T S : String,
        T.data.length = 32 → T.data.all isHexChar = true →
        S.data.length = 16 → S.data.all isHexChar = true →
        extractTraceparentData (T ++ "-" ++ S) =
          some ⟨some T, some S, none⟩) := by
  refine ⟨fun s => ?_, fun T S f h1 h2 h3 h4 h5 =>
    extract_full T S f h1 h2 h3 h4 h5,
    fun T S h1 h2 h3 h4 => extract_noflag T S h1 h2 h3 h4⟩
  rw [extract_isSome_eq_match]
  exact traceparent_isSome_iff s

/-- Witness for C7: the spec's example header decodes to exactly its
trace id, span id, and a positive sampling flag. -/
theorem traceparent_grammar_roundtrip_witness :
    extractTraceparentData
        ("4bf92f3577b34da6a3ce929d0e0e4736" ++ "-" ++ "00f067aa0ba902b7"
          ++ "-" ++ "1") =
      some ⟨some "4bf92f3577b34da6a3ce929d0e0e4736",
        some "00f067aa0ba902b7", some true⟩ :=
  traceparent_grammar_roundtrip.2.1 "4bf92f3577b34da6a3ce929d0e0e4736"
    "00f067aa0ba902b7" "1" (by decide) (by decide) (by decide) (by decide)
    (Or.inr rfl)

/-- C9: since every grammar component, both hyphens included, is
independently optional, whitespace-only strings and bare one- or
two-hyphen strings surrounded by optional whitespace still produce a
(fully empty) result object rather than no result. -/
theorem optional_everything_headers :
    (∀ s : String, s.data.all isWsChar = true →
      extractTraceparentData s = some ⟨none, none, none⟩)
    ∧ (∀ w1 w2 : String,
        w1.data.all isWsChar = true → w2.data.all isWsChar = true →
        extractTraceparentData (w1 ++ "-" ++ w2) = some ⟨none, none, none⟩ ∧
        extractTraceparentData (w1 ++ "--" ++ w2) =
          some ⟨none, none, none⟩) :=
  ⟨fun s hw => extract_ws s hw,
   fun w1 w2 hw1 hw2 =>
    ⟨extract_one_hyphen w1 w2 hw1 hw2, extract_two_hyphens w1 w2 hw1 hw2⟩⟩

/-- Witness for C9: a space-and-tab string, and hyphen strings padded with
spaces, all decode to the empty result object. -/
theorem optional_everything_headers_witness :
    extractTraceparentData " \t " = some ⟨none, none, none⟩ ∧
    extractTraceparentData (" " ++ "-" ++ " ") = some ⟨none, none, none⟩ ∧
    extractTraceparentData (" " ++ "--" ++ " ") = some ⟨none, none, none⟩ :=
  ⟨optional_everything_headers.1 " \t " (by decide),
   (optional_everything_headers.2 " " " " (by decide) (by decide)).1,
   (optional_everything_headers.2 " " " " (by decide) (by decide)).2⟩

/-! ### Helper lemmas for the tracestate encoder -/

theorem char_toNat_lt (c : Char) : c.toNat < 1114112 := by
  have h := c.valid
  unfold UInt32.isValidChar Nat.isValidChar at h
  unfold Char.toNat
  omega

theorem b64Val_b64Char_fin : ∀ i : Fin 64, b64Val? (b64Char i.val) = some i.val := by
  decide

theorem b64Val_b64Char {n : ℕ} (h : n < 64) : b64Val? (b64Char n) = some n :=
  b64Val_b64Char_fin ⟨n, h⟩

theorem b64Char_ne_pad_fin : ∀ i : Fin 64, b64Char i.val ≠ '=' := by
  decide

theorem b64Char_ne_pad {n : ℕ} (h : n < 64) : b64Char n ≠ '=' :=
  b64Char_ne_pad_fin ⟨n, h⟩

theorem hexVal_hexDigitChar_fin : ∀ i : Fin 16, hexVal? (hexDigitChar i.val) = some i.val := by
  decide

theorem hexVal_hexDigitChar {n : ℕ} (h : n < 16) : hexVal? (hexDigitChar n) = some n :=
  hexVal_hexDigitChar_fin ⟨n, h⟩

theorem utf8EncodeChar_lt256 {n : ℕ} (h : n < 1114112) :
    ∀ b ∈ utf8EncodeChar n, b < 256 := by
  unfold utf8EncodeChar
  split_ifs with h1 h2 h3 <;> intro b hb <;> simp only [List.mem_cons,
    List.mem_singleton, List.not_mem_nil, or_false] at hb
  · omega
  · rcases hb with rfl | rfl <;> omega
  · rcases hb with rfl | rfl | rfl <;> omega
  · rcases hb with rfl | rfl | rfl | rfl <;> omega

theorem utf8Cont_add {m : ℕ} (hm : m < 64) : utf8Cont (128 + m) = true := by
  simp only [utf8Cont, Bool.and_eq_true, decide_eq_true_eq]
  omega

theorem utf8DecodeStep_encodeChar {n : ℕ} (h : n < 1114112) (rest : List ℕ) :
    utf8DecodeStep (utf8EncodeChar n ++ rest) = some (n, rest) := by
  unfold utf8EncodeChar
  split_ifs with h1 h2 h3
  · simp only [List.cons_append, List.nil_append, utf8DecodeStep, if_pos h1]
  · simp only [List.cons_append, List.nil_append]
    have e1 : ¬(192 + n / 64 < 128) := by omega
    have e2 : ¬(192 + n / 64 < 192) := by omega
    have e3 : 192 + n / 64 < 224 := by omega
    have hv : (192 + n / 64 - 192) * 64 + (128 + n % 64 - 128) = n := by omega
    simp only [utf8DecodeStep, if_neg e1, if_neg e2, if_pos e3, utf8Tail1,
      utf8Cont_add (by omega : n % 64 < 64), if_true, hv]
  · simp only [List.cons_append, List.nil_append]
    have e1 : ¬(224 + n / 4096 < 128) := by omega
    have e2 : ¬(224 + n / 4096 < 192) := by omega
    have e3 : ¬(224 + n / 4096 < 224) := by omega
    have e4 : 224 + n / 4096 < 240 := by omega
    have hv : (224 + n / 4096 - 224) * 4096 + (128 + n / 64 % 64 - 128) * 64 +
        (128 + n % 64 - 128) = n := by omega
    simp only [utf8DecodeStep, if_neg e1, if_neg e2, if_neg e3, if_pos e4,
      utf8Tail2, utf8Cont_add (by omega : n / 64 % 64 < 64),
      utf8Cont_add (by omega : n % 64 < 64), Bool.and_self, if_true, hv]
  · simp only [List.cons_append, List.nil_append]
    have e1 : ¬(240 + n / 262144 < 128) := by omega
    have e2 : ¬(240 + n / 262144 < 192) := by omega
    have e3 : ¬(240 + n / 262144 < 224) := by omega
    have e4 : ¬(240 + n / 262144 < 240) := by omega
    have e5 : 240 + n / 262144 < 248 := by omega
    have hv : (240 + n / 262144 - 240) * 262144 + (128 + n / 4096 % 64 - 128) * 4096 +
        (128 + n / 64 % 64 - 128) * 64 + (128 + n % 64 - 128) = n := by omega
    simp only [utf8DecodeStep, if_neg e1, if_neg e2, if_neg e3, if_neg e4,
      if_pos e5, utf8Tail3, utf8Cont_add (by omega : n / 4096 % 64 < 64),
      utf8Cont_add (by omega : n / 64 % 64 < 64),
      utf8Cont_add (by omega : n % 64 < 64), Bool.and_self, if_true, hv]

theorem utf8EncodeChar_shape (n : ℕ) : ∃ b bs, utf8EncodeChar n = b :: bs := by
  unfold utf8EncodeChar
  split_ifs <;> exact ⟨_, _, rfl⟩

theorem utf8DecodeLoop_encode (l : List Char) :
    ∀ fuel : ℕ, l.length ≤ fuel →
      utf8DecodeLoop fuel (utf8Encode l) = some (l.map Char.toNat) := by
  induction l with
  | nil =>
    intro fuel _
    cases fuel <;> rfl
  | cons c cs ih =>
    intro fuel hf
    cases fuel with
    | zero => simp at hf
    | succ f =>
      obtain ⟨b, bs, hshape⟩ := utf8EncodeChar_shape c.toNat
      have hstep := utf8DecodeStep_encodeChar (char_toNat_lt c) (utf8Encode cs)
      have henc : utf8Encode (c :: cs) = b :: (bs ++ utf8Encode cs) := by
        simp [utf8Encode, List.flatten_cons, hshape]
      rw [henc]
      simp only [utf8DecodeLoop]
      rw [← List.cons_append, ← hshape, hstep]
      simp only []
      rw [ih f (by simp at hf; omega)]
      rfl

theorem utf8Encode_length_ge (l : List Char) :
    l.length ≤ (utf8Encode l).length := by
  induction l with
  | nil => simp [utf8Encode]
  | cons c cs ih =>
    obtain ⟨b, bs, hshape⟩ := utf8EncodeChar_shape c.toNat
    simp only [utf8Encode, List.map_cons, List.flatten_cons, List.length_append,
      List.length_cons, hshape] at *
    omega

theorem utf8_roundtrip (l : List Char) :
    utf8Decode (utf8Encode l) = some (l.map Char.toNat) :=
  utf8DecodeLoop_encode l (utf8Encode l).length (utf8Encode_length_ge l)

theorem utf8Encode_lt256 (l : List Char) : ∀ b ∈ utf8Encode l, b < 256 := by
  intro b hb
  unfold utf8Encode at hb
  rw [List.mem_flatten] at hb
  obtain ⟨bl, hbl, hmem⟩ := hb
  rw [List.mem_map] at hbl
  obtain ⟨c, _, rfl⟩ := hbl
  exact utf8EncodeChar_lt256 (char_toNat_lt c) b hmem

theorem b64_noPad_decode (l : List ℕ) (hb : ∀ b ∈ l, b < 256) :
    b64Decode (b64EncodeNoPad l) = some l := by
  have H : ∀ N l, List.length l ≤ N → (∀ b ∈ l, b < 256) →
      b64Decode (b64EncodeNoPad l) = some l := by
    intro N
    induction N with
    | zero =>
      intro l hl _
      have : l = [] := List.eq_nil_of_length_eq_zero (by omega)
      subst this
      rfl
    | succ N ihN =>
      intro l hl hall
      rcases l with _ | ⟨b1, _ | ⟨b2, _ | ⟨b3, rest⟩⟩⟩
      · rfl
      · have h1 : b1 < 256 := hall b1 (by simp)
        simp only [b64EncodeNoPad]
        conv_lhs => rw [b64Decode.eq_def]
        simp only []
        rw [b64Val_b64Char (by omega), b64Val_b64Char (by omega)]
        have hv : b1 / 4 * 4 + b1 % 4 * 16 / 16 = b1 := by omega
        simp only [hv]
      · have h1 : b1 < 256 := hall b1 (by simp)
        have h2 : b2 < 256 := hall b2 (by simp)
        simp only [b64EncodeNoPad]
        conv_lhs => rw [b64Decode.eq_def]
        simp only []
        rw [b64Val_b64Char (by omega), b64Val_b64Char (by omega),
          b64Val_b64Char (by omega)]
        have hv1 : b1 / 4 * 4 + (b1 % 4 * 16 + b2 / 16) / 16 = b1 := by omega
        have hv2 : (b1 % 4 * 16 + b2 / 16) % 16 * 16 + b2 % 16 * 4 / 4 = b2 := by
          omega
        simp only [hv1, hv2]
      · have h1 : b1 < 256 := hall b1 (by simp)
        have h2 : b2 < 256 := hall b2 (by simp)
        have h3 : b3 < 256 := hall b3 (by simp)
        have hrec := ihN rest (by simp at hl; omega)
          (fun b hbm => hall b (by simp [hbm]))
        simp only [b64EncodeNoPad]
        conv_lhs => rw [b64Decode.eq_def]
        simp only []
        rw [b64Val_b64Char (by omega), b64Val_b64Char (by omega),
          b64Val_b64Char (by omega), b64Val_b64Char (by omega)]
        have hv1 : b1 / 4 * 4 + (b1 % 4 * 16 + b2 / 16) / 16 = b1 := by omega
        have hv2 : (b1 % 4 * 16 + b2 / 16) % 16 * 16 +
            (b2 % 16 * 4 + b3 / 64) / 4 = b2 := by omega
        have hv3 : (b2 % 16 * 4 + b3 / 64) % 4 * 64 + b3 % 64 = b3 := by omega
        simp [hrec, hv1, hv2, hv3]
  exact H l.length l le_rfl hb

theorem b64_noPad_ne_pad (l : List ℕ) (hb : ∀ b ∈ l, b < 256) :
    ∀ c ∈ b64EncodeNoPad l, c ≠ '=' := by
  have H : ∀ N l, List.length l ≤ N → (∀ b ∈ l, b < 256) →
      ∀ c ∈ b64EncodeNoPad l, c ≠ '=' := by
    intro N
    induction N with
    | zero =>
      intro l hl _
      have : l = [] := List.eq_nil_of_length_eq_zero (by omega)
      subst this
      simp [b64EncodeNoPad]
    | succ N ihN =>
      intro l hl hall c hc
      rcases l with _ | ⟨b1, _ | ⟨b2, _ | ⟨b3, rest⟩⟩⟩
      · simp [b64EncodeNoPad] at hc
      · have h1 : b1 < 256 := hall b1 (by simp)
        simp only [b64EncodeNoPad, List.mem_cons, List.mem_singleton,
          List.not_mem_nil, or_false] at hc
        rcases hc with rfl | rfl
        · exact b64Char_ne_pad (by omega)
        · exact b64Char_ne_pad (by omega)
      · have h1 : b1 < 256 := hall b1 (by simp)
        have h2 : b2 < 256 := hall b2 (by simp)
        simp only [b64EncodeNoPad, List.mem_cons, List.mem_singleton,
          List.not_mem_nil, or_false] at hc
        rcases hc with rfl | rfl | rfl
        · exact b64Char_ne_pad (by omega)
        · exact b64Char_ne_pad (by omega)
        · exact b64Char_ne_pad (by omega)
      · have h1 : b1 < 256 := hall b1 (by simp)
        have h2 : b2 < 256 := hall b2 (by simp)
        have h3 : b3 < 256 := hall b3 (by simp)
        simp only [b64EncodeNoPad, List.mem_cons] at hc
        rcases hc with rfl | rfl | rfl | rfl | hc
        · exact b64Char_ne_pad (by omega)
        · exact b64Char_ne_pad (by omega)
        · exact b64Char_ne_pad (by omega)
        · exact b64Char_ne_pad (by omega)
        · exact ihN rest (by simp at hl; omega)
            (fun b hbm => hall b (by simp [hbm])) c hc
  exact H l.length l le_rfl hb

theorem b64Pad_cases (l : List ℕ) :
    b64Pad l = [] ∨ b64Pad l = ['='] ∨ b64Pad l = ['=', '='] := by
  have H : ∀ N l, List.length l ≤ N →
      b64Pad l = [] ∨ b64Pad l = ['='] ∨ b64Pad l = ['=', '='] := by
    intro N
    induction N with
    | zero =>
      intro l hl
      have : l = [] := List.eq_nil_of_length_eq_zero (by omega)
      subst this
      exact Or.inl rfl
    | succ N ihN =>
      intro l hl
      rcases l with _ | ⟨b1, _ | ⟨b2, _ | ⟨b3, rest⟩⟩⟩
      · exact Or.inl rfl
      · exact Or.inr (Or.inr rfl)
      · exact Or.inr (Or.inl rfl)
      · exact ihN rest (by simp at hl; omega)
  exact H l.length l le_rfl

theorem strip_append_two (x : List Char) :
    stripB64Padding (x ++ ['=', '=']) = x := by
  unfold stripB64Padding
  rw [List.reverse_append]
  simp

theorem strip_append_one (x : List Char) (hx : ∀ c ∈ x, c ≠ '=') :
    stripB64Padding (x ++ ['=']) = x := by
  unfold stripB64Padding
  rw [List.reverse_append]
  cases hrev : x.reverse with
  | nil =>
    have : x = [] := by simpa using congrArg List.reverse hrev
    simp [this]
  | cons c r =>
    have hc : c ≠ '=' := hx c (by rw [← List.mem_reverse, hrev]; simp)
    have hxr : x = (c :: r).reverse := by
      rw [← hrev, List.reverse_reverse]
    simp [hc, ← hxr]

theorem strip_no_pad (x : List Char) (hx : ∀ c ∈ x, c ≠ '=') :
    stripB64Padding x = x := by
  unfold stripB64Padding
  cases hrev : x.reverse with
  | nil => rfl
  | cons c r =>
    have hc : c ≠ '=' := hx c (by rw [← List.mem_reverse, hrev]; simp)
    simp [hc]

theorem b64_strip_encode (l : List ℕ) (hb : ∀ b ∈ l, b < 256) :
    stripB64Padding (b64Encode l) = b64EncodeNoPad l := by
  unfold b64Encode
  rcases b64Pad_cases l with hp | hp | hp <;> rw [hp]
  · rw [List.append_nil]
    exact strip_no_pad _ (b64_noPad_ne_pad l hb)
  · exact strip_append_one _ (b64_noPad_ne_pad l hb)
  · exact strip_append_two _

theorem b64_strip_decode (l : List ℕ) (hb : ∀ b ∈ l, b < 256) :
    b64Decode (stripB64Padding (b64Encode l)) = some l := by
  rw [b64_strip_encode l hb]
  exact b64_noPad_decode l hb

theorem b64_strip_getLast (l : List ℕ) (hb : ∀ b ∈ l, b < 256) :
    (stripB64Padding (b64Encode l)).getLast? ≠ some '=' := by
  rw [b64_strip_encode l hb]
  intro hcon
  exact b64_noPad_ne_pad l hb '=' (List.mem_of_mem_getLast? hcon) rfl

theorem parseJStringStep_escapeChar (c : Char) (rest : List Char) :
    parseJStringStep (escapeJsonChar c ++ rest) = some (some c, rest) := by
  unfold escapeJsonChar
  split_ifs with h1 h2 h3 h4 h5 h6 h7 h8
  · subst h1; rfl
  · subst h2; rfl
  · subst h3; rfl
  · subst h4; rfl
  · subst h5; rfl
  · subst h6; rfl
  · subst h7; rfl
  · simp only [List.cons_append, List.nil_append]
    have hd1 := hexVal_hexDigitChar (show c.toNat / 16 < 16 by omega)
    have hd2 := hexVal_hexDigitChar (show c.toNat % 16 < 16 by omega)
    have hv : 0 * 4096 + 0 * 256 + c.toNat / 16 * 16 + c.toNat % 16 = c.toNat := by
      omega
    have hred : parseJStringStep ('\\' :: 'u' :: '0' :: '0' ::
        hexDigitChar (c.toNat / 16) :: hexDigitChar (c.toNat % 16) :: rest) =
      (parseJStringU ('0' :: '0' :: hexDigitChar (c.toNat / 16) ::
        hexDigitChar (c.toNat % 16) :: rest)).map (fun p => (some p.1, p.2)) := rfl
    rw [hred]
    simp only [parseJStringU]
    rw [show hexVal? '0' = some 0 from rfl, hd1, hd2]
    simp only []
    rw [hv, Char.ofNat_toNat]
    rfl
  · simp only [List.cons_append, List.nil_append]
    simp [parseJStringStep, h1, h2]

theorem parseJStringLoop_escape (l : List Char) :
    ∀ (fuel : ℕ) (rest : List Char), l.length < fuel →
      parseJStringLoop fuel (escapeJsonString l ++ ('"' :: rest)) =
        some (l, rest) := by
  induction l with
  | nil =>
    intro fuel rest hf
    obtain ⟨f, rfl⟩ : ∃ f, fuel = f + 1 := ⟨fuel - 1, by omega⟩
    simp only [escapeJsonString, List.map_nil, List.flatten_nil,
      List.nil_append]
    rfl
  | cons c cs ih =>
    intro fuel rest hf
    obtain ⟨f, rfl⟩ : ∃ f, fuel = f + 1 := ⟨fuel - 1, by omega⟩
    have hesc : escapeJsonString (c :: cs) =
        escapeJsonChar c ++ escapeJsonString cs := by
      simp [escapeJsonString, List.flatten_cons]
    rw [hesc, List.append_assoc]
    simp only [parseJStringLoop]
    rw [parseJStringStep_escapeChar]
    simp only []
    rw [ih f rest (by simp at hf; omega)]
    rfl

theorem escapeJsonChar_shape (c : Char) : ∃ d ds, escapeJsonChar c = d :: ds := by
  unfold escapeJsonChar
  split_ifs <;> exact ⟨_, _, rfl⟩

theorem escapeJsonString_length_ge (l : List Char) :
    l.length ≤ (escapeJsonString l).length := by
  induction l with
  | nil => simp [escapeJsonString]
  | cons c cs ih =>
    obtain ⟨d, ds, hshape⟩ := escapeJsonChar_shape c
    simp only [escapeJsonString, List.map_cons, List.flatten_cons,
      List.length_append, List.length_cons, hshape] at *
    omega

theorem parseJStringBody_escape (l rest : List Char) :
    parseJStringBody (escapeJsonString l ++ ('"' :: rest)) = some (l, rest) := by
  apply parseJStringLoop_escape
  have := escapeJsonString_length_ge l
  simp only [List.length_append, List.length_cons]
  omega

theorem parse_quoteJson (s : String) (rest : List Char) :
    parseJString (quoteJson s ++ rest) = some (s, rest) := by
  have hsh : quoteJson s ++ rest =
      '"' :: (escapeJsonString s.data ++ ('"' :: rest)) := by
    simp [quoteJson, List.append_assoc]
  rw [hsh]
  simp only [parseJString]
  rw [parseJStringBody_escape]
  simp [string_mk_data]

theorem parseJVal_enc (v : JVal) (rest : List Char) :
    parseJVal (jvalEnc v ++ rest) = some (v, rest) := by
  cases v with
  | null => rfl
  | str s =>
    have hred : parseJVal (jvalEnc (.str s) ++ rest) =
        (parseJString (jvalEnc (.str s) ++ rest)).map
          (fun p => (.str p.1, p.2)) := rfl
    rw [hred]
    have : jvalEnc (JVal.str s) = quoteJson s := rfl
    rw [this, parse_quoteJson]
    rfl

theorem parseJMembers_cons (fuel : ℕ) (hf : 0 < fuel) (k : String) (v : JVal)
    (r4 : List Char) :
    parseJMembers fuel (jsonMember k (jvalEnc v) ++ (',' :: r4)) =
      (parseJMembers (fuel - 1) r4).map (fun p => ((k, v) :: p.1, p.2)) := by
  obtain ⟨f, rfl⟩ : ∃ f, fuel = f + 1 := ⟨fuel - 1, by omega⟩
  simp only [Nat.add_sub_cancel]
  have hsh : jsonMember k (jvalEnc v) ++ (',' :: r4) =
      quoteJson k ++ (':' :: (jvalEnc v ++ (',' :: r4))) := by
    simp [jsonMember, List.append_assoc]
  rw [hsh]
  simp only [parseJMembers]
  rw [parse_quoteJson, Option.some_bind]
  simp only []
  rw [parseJVal_enc, Option.some_bind]
  rfl

theorem parseJMembers_last (fuel : ℕ) (hf : 0 < fuel) (k : String) (v : JVal)
    (r0 : List Char) :
    parseJMembers fuel (jsonMember k (jvalEnc v) ++ ('}' :: r0)) =
      some ([(k, v)], '}' :: r0) := by
  obtain ⟨f, rfl⟩ : ∃ f, fuel = f + 1 := ⟨fuel - 1, by omega⟩
  have hsh : jsonMember k (jvalEnc v) ++ ('}' :: r0) =
      quoteJson k ++ (':' :: (jvalEnc v ++ ('}' :: r0))) := by
    simp [jsonMember, List.append_assoc]
  rw [hsh]
  simp only [parseJMembers]
  rw [parse_quoteJson, Option.some_bind]
  simp only []
  rw [parseJVal_enc, Option.some_bind]
  rfl

theorem parseJObject_four (k1 k2 k3 k4 : String) (v1 v2 v3 v4 : JVal) :
    parseJObject ('{' :: (jsonMember k1 (jvalEnc v1) ++
      (',' :: (jsonMember k2 (jvalEnc v2) ++
        (',' :: (jsonMember k3 (jvalEnc v3) ++
          (',' :: (jsonMember k4 (jvalEnc v4) ++
            ('}' :: ([] : List Char)))))))))) =
      some ([(k1, v1), (k2, v2), (k3, v3), (k4, v4)], []) := by
  have hlen3 : 3 ≤ (jsonMember k1 (jvalEnc v1) ++
      (',' :: (jsonMember k2 (jvalEnc v2) ++
        (',' :: (jsonMember k3 (jvalEnc v3) ++
          (',' :: (jsonMember k4 (jvalEnc v4) ++
            ('}' :: ([] : List Char))))))))).length := by
    simp [List.length_append]
    omega
  simp only [parseJObject]
  generalize hN : (jsonMember k1 (jvalEnc v1) ++
      (',' :: (jsonMember k2 (jvalEnc v2) ++
        (',' :: (jsonMember k3 (jvalEnc v3) ++
          (',' :: (jsonMember k4 (jvalEnc v4) ++
            ('}' :: ([] : List Char))))))))).length = N
  rw [hN] at hlen3
  obtain ⟨M, rfl⟩ : ∃ M, N = M + 3 := ⟨N - 3, by omega⟩
  rw [parseJMembers_cons (M + 3 + 1) (by omega) k1 v1]
  have e1 : M + 3 + 1 - 1 = M + 2 + 1 := by omega
  rw [e1, parseJMembers_cons (M + 2 + 1) (by omega) k2 v2]
  have e2 : M + 2 + 1 - 1 = M + 1 + 1 := by omega
  rw [e2, parseJMembers_cons (M + 1 + 1) (by omega) k3 v3]
  have e3 : M + 1 + 1 - 1 = M + 1 := by omega
  rw [e3, parseJMembers_last (M + 1) (by omega) k4 v4]
  simp

theorem parseJObject_stringify (d : TracestateData)
    (henv : d.environment ≠ .undefined) (hrel : d.release ≠ .undefined) :
    parseJObject (jsonStringifyTracestate d) =
      some ([("trace_id", JVal.str d.trace_id),
        ("environment", jvalOfJSStr d.environment),
        ("release", jvalOfJSStr d.release),
        ("public_key", JVal.str d.public_key)], []) := by
  have hev : jsonStrOrNull d.environment =
      some (jvalEnc (jvalOfJSStr d.environment)) := by
    cases hcase : d.environment with
    | undefined => exact absurd hcase henv
    | null => rfl
    | str s => rfl
  have hrl : jsonStrOrNull d.release =
      some (jvalEnc (jvalOfJSStr d.release)) := by
    cases hcase : d.release with
    | undefined => exact absurd hcase hrel
    | null => rfl
    | str s => rfl
  have hmem : jsonMembers d =
      [jsonMember "trace_id" (jvalEnc (.str d.trace_id)),
       jsonMember "environment" (jvalEnc (jvalOfJSStr d.environment)),
       jsonMember "release" (jvalEnc (jvalOfJSStr d.release)),
       jsonMember "public_key" (jvalEnc (.str d.public_key))] := by
    simp [jsonMembers, hev, hrl, jvalEnc]
  have hshape : jsonStringifyTracestate d =
      '{' :: (jsonMember "trace_id" (jvalEnc (.str d.trace_id)) ++
        (',' :: (jsonMember "environment" (jvalEnc (jvalOfJSStr d.environment)) ++
          (',' :: (jsonMember "release" (jvalEnc (jvalOfJSStr d.release)) ++
            (',' :: (jsonMember "public_key" (jvalEnc (.str d.public_key)) ++
              ('}' :: ([] : List Char))))))))) := by
    rw [jsonStringifyTracestate, hmem]
    simp [List.intercalate, List.intersperse, List.append_assoc]
  rw [hshape]
  exact parseJObject_four "trace_id" "environment" "release" "public_key"
    (.str d.trace_id) (jvalOfJSStr d.environment) (jvalOfJSStr d.release)
    (.str d.public_key)

theorem orNull_not_undefined (x : JSStr) : orNull x ≠ .undefined := by
  unfold orNull
  split <;> cases x <;> simp_all [strFalsy]

theorem jval_orNull (x : JSStr) :
    jvalOfJSStr (orNull x) = if strFalsy x then JVal.null else jvalOfJSStr x := by
  unfold orNull
  split_ifs <;> rfl

/-- C8: the produced tracestate header value never ends in `=`, and
base64-decoding then UTF-8-decoding then JSON-parsing it yields exactly the
four-member object in which `environment` and `release` are `null` exactly
when the input supplied `undefined`, `null` or the empty string, and equal
to the input values otherwise (`trace_id` and `public_key` pass through
unchanged). Serialization always succeeds in the model, so this covers
every input. -/
theorem tracestate_value_roundtrip (d : TracestateData) :
    (computeTracestateValue d).data.getLast? ≠ some '=' ∧
    decodeTracestate (computeTracestateValue d) =
      some [("trace_id", JVal.str d.trace_id),
        ("environment", if strFalsy d.environment then JVal.null
          else jvalOfJSStr d.environment),
        ("release", if strFalsy d.release then JVal.null
          else jvalOfJSStr d.release),
        ("public_key", JVal.str d.public_key)] := by
  have hb := utf8Encode_lt256 (jsonStringifyTracestate
    { d with environment := orNull d.environment, release := orNull d.release })
  have hdata : (computeTracestateValue d).data =
      stripB64Padding (b64Encode (utf8Encode (jsonStringifyTracestate
        { d with environment := orNull d.environment,
                 release := orNull d.release }))) := rfl
  constructor
  · rw [hdata]
    exact b64_strip_getLast _ hb
  · unfold decodeTracestate
    rw [hdata, b64_strip_decode _ hb, Option.some_bind, utf8_roundtrip,
      Option.some_bind]
    have hmapid : ((jsonStringifyTracestate
        { d with environment := orNull d.environment,
                 release := orNull d.release }).map Char.toNat).map Char.ofNat =
        jsonStringifyTracestate
          { d with environment := orNull d.environment,
                   release := orNull d.release } := by
      rw [List.map_map]
      simp [Function.comp_def, Char.ofNat_toNat]
    rw [hmapid,
      parseJObject_stringify _ (orNull_not_undefined _) (orNull_not_undefined _),
      Option.some_bind]
    simp [jval_orNull]

/-- C10: `computeTracestateValue` mutates its argument: after the call the
caller's object has `environment` and `release` overwritten with `null`
whenever they were falsy (`undefined`, `null` or the empty string), and
unchanged otherwise; `trace_id` and `public_key` are left untouched. In the
model the call cannot throw, and the assignments precede the encoding
either way. -/
theorem tracestate_mutates_argument (d : TracestateData) :
    ((computeTracestateValueMut d).1.environment =
      if strFalsy d.environment then JSStr.null else d.environment) ∧
    ((computeTracestateValueMut d).1.release =
      if strFalsy d.release then JSStr.null else d.release) ∧
    (computeTracestateValueMut d).1.trace_id = d.trace_id ∧
    (computeTracestateValueMut d).1.public_key = d.public_key :=
  ⟨rfl, rfl, rfl, rfl⟩

end SentryTracing
